import Mathlib

/-!
Verification of the nucleosome-array Monte Carlo engine.

This file gives a shallow embedding, over the real numbers, of the parts of
`src/utils.py` and `src/dnaMC.py` that the checked claims are about, and
proves or refutes each claim against that embedding.  Machine floats are
modelled by real numbers; numpy arrays of per-rod or per-junction values are
modelled by total functions out of the natural numbers, with the slice bounds
of the Python code carried explicitly in the definitions.
-/

open Real Matrix

namespace NucArray

/-! ### utils.py: sweep partitioning and twist schedules -/

/-- Embedding of `utils.partition` (utils.py lines 36-41): `n_parts` equal
chunks of `total // n_parts` sweeps when `total >= n_parts` (otherwise no
equal chunks), followed by a final chunk `total % n_parts` exactly when that
remainder is nonzero. -/
def partition (n_parts total : ℕ) : List ℕ :=
  let arr := if n_parts ≤ total then List.replicate n_parts (total / n_parts) else []
  let rem := total % n_parts
  if rem ≠ 0 then arr ++ [rem] else arr

/-- Embedding of `numpy.arange(start, stop, step)` on floats: the arithmetic
sequence `start + k * step` of length `ceil((stop - start) / step)` (empty when
that quantity is not positive). -/
noncomputable def np_arange (start stop step : ℝ) : List ℝ :=
  (List.range (⌈(stop - start) / step⌉.toNat)).map fun k => start + k * step

/-- Embedding of `utils.smart_arange` (utils.py lines 43-45): reorient the step
so that it points from `start` towards `stop`, and (when `incl` is set) push the
stop out by one step so the stop value itself can be produced. -/
noncomputable def smart_arange (start stop step : ℝ) (incl : Bool) : List ℝ :=
  let s := if 0 < (stop - start) * step then step else -step
  np_arange start (stop + (if incl then s else 0)) s

/-- Embedding of the step selection `tmp` of the scalar branch of
`utils.twist_steps` (utils.py line 50): the smaller in magnitude of the
default step size and the stop value `f` itself (ties go to the default). -/
noncomputable def chosenStep (default_step_size f : ℝ) : ℝ :=
  if |default_step_size| ≤ |f| then default_step_size else f

/-- Embedding of the scalar branch of `utils.twist_steps` (utils.py lines
47-51): a single stop value `f` yields `smart_arange 0 f tmp` where `tmp` is
the chosen step. -/
noncomputable def twist_steps_single (default_step_size f : ℝ) : List ℝ :=
  smart_arange 0 f (chosenStep default_step_size f) true

/-! ### utils.py: rotation geometry -/

/-- Embedding of `numpy.arctan2 y x`: the argument of the complex number
`x + y i`, in the half-open range `(-pi, pi]`, with `arctan2 0 0 = 0`. -/
noncomputable def arctan2 (y x : ℝ) : ℝ :=
  Complex.arg ((x : ℂ) + (y : ℂ) * Complex.I)

/-- Embedding of `utils.axialRotMatrix` (utils.py lines 86-112): passive
rotation matrix about axis 2 (z), 0 (x) or otherwise 1 (y). -/
noncomputable def axialRotMatrix (θ : ℝ) (axis : ℕ) : Matrix (Fin 3) (Fin 3) ℝ :=
  if axis = 2 then
    !![Real.cos θ, Real.sin θ, 0; -Real.sin θ, Real.cos θ, 0; 0, 0, 1]
  else if axis = 0 then
    !![1, 0, 0; 0, Real.cos θ, Real.sin θ; 0, -Real.sin θ, Real.cos θ]
  else
    !![Real.cos θ, 0, -Real.sin θ; 0, 1, 0; Real.sin θ, 0, Real.cos θ]

/-- Embedding of `utils.eulerMatrixOfAngles` (utils.py lines 140-151): the
product of the z, x, z axial rotations at phi, theta, psi. -/
noncomputable def eulerMatrixOfAngles (a : Fin 3 → ℝ) : Matrix (Fin 3) (Fin 3) ℝ :=
  axialRotMatrix (a 0) 2 * axialRotMatrix (a 1) 0 * axialRotMatrix (a 2) 2

/-- Embedding of the per-rod body of `utils.rotation_matrices` (utils.py lines
12-33), with the nine entries written out exactly as in the source. -/
noncomputable def rotationMatrix (a : Fin 3 → ℝ) : Matrix (Fin 3) (Fin 3) ℝ :=
  !![Real.cos (a 0) * Real.cos (a 2) - Real.cos (a 1) * Real.sin (a 0) * Real.sin (a 2),
     Real.cos (a 0) * Real.sin (a 2) + Real.cos (a 1) * Real.cos (a 2) * Real.sin (a 0),
     Real.sin (a 1) * Real.sin (a 0);
     -Real.cos (a 2) * Real.sin (a 0) - Real.cos (a 1) * Real.cos (a 0) * Real.sin (a 2),
     -Real.sin (a 0) * Real.sin (a 2) + Real.cos (a 1) * Real.cos (a 0) * Real.cos (a 2),
     Real.cos (a 0) * Real.sin (a 1);
     Real.sin (a 1) * Real.sin (a 2),
     -Real.cos (a 2) * Real.sin (a 1),
     Real.cos (a 1)]

/-- Embedding of `utils.anglesOfEulerMatrix` (utils.py lines 114-131).  The
source tests `m[2][2] == 1.0` and `m[2][2] == -1.0` by exact floating
equality; those two branches fix phi to 0 and read the combined angle from a
single arctan2; the generic branch extracts all three angles. -/
noncomputable def anglesOfEulerMatrix (m : Matrix (Fin 3) (Fin 3) ℝ) : Fin 3 → ℝ :=
  if m 2 2 = 1 then
    ![0, 0, arctan2 (m 0 1) (m 0 0)]
  else if m 2 2 = -1 then
    ![0, Real.pi, arctan2 (m 0 1) (m 0 0)]
  else
    ![arctan2 (m 0 2) (m 1 2), Real.arccos (m 2 2), arctan2 (m 2 0) (-(m 2 1))]

/-! ### dnaMC.py: checkerboard masks and energies -/

/-- Embedding of the `oddMask` array built in `NakedDNA.__init__` (dnaMC.py
line 134): entry `j` (for `j < L - 2`) is `j % 2 == 1`. -/
def oddMask (j : ℕ) : Bool := decide (j % 2 = 1)

/-- Embedding of the `evenMask` array built in `NakedDNA.__init__` (dnaMC.py
line 135) as `np.roll(oddMask, 1)` over an array of length `L - 2`: entry `j`
is `oddMask` at index `(j - 1) mod (L - 2)`. -/
def evenMask (L j : ℕ) : Bool := decide ((((j : ℤ) - 1) % ((L : ℤ) - 2)) % 2 = 1)

/-- Embedding of the `1.0 * mask` coercion of a numpy boolean mask to floats
(dnaMC.py lines 301 and 315). -/
noncomputable def boolToReal (b : Bool) : ℝ := if b then 1 else 0

/-- Simulation constants of a `NakedDNA` strand: bend modulus `B`, microscopic
bend modulus `Bm` (equal to `B` without disorder), twist modulus `Cmod`, rod
length `d`, temperature `T`, stretching force, and kick size `sigma`. -/
structure Params where
  B : ℝ
  Bm : ℝ
  Cmod : ℝ
  d : ℝ
  T : ℝ
  force : ℝ
  sigma : ℝ

/-- Embedding of `NakedDNA.deltaMatrices` at one junction (dnaMC.py lines
153-172): the relative rotation `R_n^T R_(n+1)` between consecutive rods. -/
noncomputable def deltaMatrix (a b : Fin 3 → ℝ) : Matrix (Fin 3) (Fin 3) ℝ :=
  (rotationMatrix a)ᵀ * rotationMatrix b

/-- Embedding of `betaSq = 2.0 * (1 - Ds[:, 2, 2])` from
`NakedDNA.twistBendAngles` in squared mode (dnaMC.py line 179). -/
noncomputable def betaSq (a b : Fin 3 → ℝ) : ℝ :=
  2 * (1 - deltaMatrix a b 2 2)

/-- Embedding of `GammaSq = 1.0 - Ds[:,0,0] - Ds[:,1,1] + Ds[:,2,2]` from
`NakedDNA.twistBendAngles` in squared mode (dnaMC.py line 180). -/
noncomputable def gammaSq (a b : Fin 3 → ℝ) : ℝ :=
  1 - deltaMatrix a b 0 0 - deltaMatrix a b 1 1 + deltaMatrix a b 2 2

/-- Embedding of `NakedDNA.bendingEnergyDensity` in squared mode (dnaMC.py
line 194): `Bm / (2 d) * betaSq` at one junction. -/
noncomputable def bendingEnergyDensitySq (Bm d : ℝ) (a b : Fin 3 → ℝ) : ℝ :=
  Bm / (2 * d) * betaSq a b

/-- Embedding of `NakedDNA.twistEnergyDensity` in squared mode (dnaMC.py line
211): `C * GammaSq / (2 d)` at one junction. -/
noncomputable def twistEnergyDensitySq (Cmod d : ℝ) (a b : Fin 3 → ℝ) : ℝ :=
  Cmod / (2 * d) * gammaSq a b

/-- Embedding of `NakedDNA.stretchEnergyDensity` at one rod (dnaMC.py lines
221-232): `-force * prefactor * tangent_z` with `tangent_z = cos theta` and
`prefactor = 1 / (1.38e-2 * max T minTemp)`. -/
noncomputable def stretchEnergyDensityAt (T force θ : ℝ) : ℝ :=
  -force * (1 / (1.38e-2 * max T 1e-10)) * Real.cos θ

/-- Embedding of `NakedDNA.totalEnergyDensity` (dnaMC.py lines 240-253) at
junction `n` of the angle chain `e`: bending plus twist energy of the junction
between rods `n` and `n+1`, plus the stretching energy of rod `n`. -/
noncomputable def totalEnergyDensity (P : Params) (e : ℕ → Fin 3 → ℝ) (n : ℕ) : ℝ :=
  bendingEnergyDensitySq P.Bm P.d (e n) (e (n + 1))
    + twistEnergyDensitySq P.Cmod P.d (e n) (e (n + 1))
    + stretchEnergyDensityAt P.T P.force (e n 1)

/-! ### dnaMC.py: the Metropolis sweep -/

/-- Embedding of the kick clipping `moves[np.abs(moves) >= 5.0*sigma] = 0`
(dnaMC.py line 288). -/
noncomputable def clipKick (sigma m : ℝ) : ℝ := if 5 * sigma ≤ |m| then 0 else m

/-- Modelled from the spec: the function `utils.metropolis(reject, deltaE,
even)` is called at dnaMC.py lines 305 and 316 but its definition is absent
from the provided sources.  Following spec section 4.5 steps 4-5 and the
comments at dnaMC.py lines 300-304, it examines the entries of the given
parity (even indices when `even` is true, odd when false) and clears the
reject flag of each examined rod whose move is accepted: unconditionally when
its energy delta is nonpositive, and otherwise exactly when the rod's own
uniform draw `u j` falls below `exp (-deltaE j)`.  Unexamined entries keep
their flag. -/
noncomputable def metropolis (reject : ℕ → ℝ) (deltaE : ℕ → ℝ) (even : Bool)
    (u : ℕ → ℝ) : ℕ → ℝ := fun j =>
  if j % 2 = (if even then 0 else 1) then
    if deltaE j ≤ 0 ∨ u j < Real.exp (-deltaE j) then 0 else reject j
  else reject j

/-- Embedding of the slice update `euler[1:-1, c] += moves[:, c] * mask`
(dnaMC.py lines 295 and 311): rod `r` with `1 <= r <= L - 2` gains
`move (r-1) * mask (r-1)` in component `c`; boundary rods and the other two
components are untouched. -/
noncomputable def perturbedState (L : ℕ) (c : Fin 3) (mask : ℕ → Bool)
    (move : ℕ → ℝ) (e : ℕ → Fin 3 → ℝ) : ℕ → Fin 3 → ℝ := fun r k =>
  if k = c ∧ 1 ≤ r ∧ r ≤ L - 2 then e r k + move (r - 1) * boolToReal (mask (r - 1))
  else e r k

/-- Embedding of `deltaE = (Ef - E0)[:-1] + (Ef - E0)[1:]` (dnaMC.py lines 297
and 313): the energy change of the two junctions flanking interior rod
`j + 1`. -/
noncomputable def deltaEOf (E0 Ef : ℕ → ℝ) (j : ℕ) : ℝ :=
  (Ef j - E0 j) + (Ef (j + 1) - E0 (j + 1))

/-- The per-rod energy deltas seen by one sublattice pass: the total energy
density is recomputed on the perturbed chain and differenced against the
baseline `E0`. -/
noncomputable def passDeltaE (P : Params) (L : ℕ) (c : Fin 3) (mask : ℕ → Bool)
    (move : ℕ → ℝ) (E0 : ℕ → ℝ) (e : ℕ → Fin 3 → ℝ) : ℕ → ℝ :=
  deltaEOf E0 (totalEnergyDensity P (perturbedState L c mask move e))

/-- Embedding of one sublattice half of the inner loop of
`NakedDNA.metropolisUpdate` (dnaMC.py lines 295-307 and 311-318): perturb the
masked rods in component `c`, compute the flanking-junction energy deltas,
resolve accept/reject with `metropolis`, subtract the rejected moves back
out, and refresh the baseline energy density. -/
noncomputable def sublatticePass (P : Params) (L : ℕ) (c : Fin 3)
    (mask : ℕ → Bool) (evenFlag : Bool) (move u E0 : ℕ → ℝ)
    (e : ℕ → Fin 3 → ℝ) : (ℕ → Fin 3 → ℝ) × (ℕ → ℝ) :=
  let e1 := perturbedState L c mask move e
  let dE := passDeltaE P L c mask move E0 e
  let rej := metropolis (fun j => boolToReal (mask j)) dE evenFlag u
  let e2 : ℕ → Fin 3 → ℝ := fun r k =>
    if k = c ∧ 1 ≤ r ∧ r ≤ L - 2 then e1 r k - move (r - 1) * rej (r - 1)
    else e1 r k
  (e2, totalEnergyDensity P e2)

/-- One component iteration of `NakedDNA.metropolisUpdate` (dnaMC.py lines
290-318): move the even rods (the `oddMask` sublattice, examined with
`even=False`), then the odd rods (the `evenMask` sublattice, examined with
`even=True`). -/
noncomputable def componentStep (P : Params) (L : ℕ) (c : Fin 3) (move : ℕ → ℝ)
    (u1 u2 : ℕ → ℝ) (st : (ℕ → Fin 3 → ℝ) × (ℕ → ℝ)) :
    (ℕ → Fin 3 → ℝ) × (ℕ → ℝ) :=
  let s1 := sublatticePass P L c oddMask false move u1 st.2 st.1
  sublatticePass P L c (evenMask L) true move u2 s1.2 s1.1

/-- Embedding of `NakedDNA.metropolisUpdate` (dnaMC.py lines 276-320) with the
randomness passed explicitly: `moves` are the raw Gaussian kicks (clipped to 0
at magnitude `5 sigma` and beyond) and `u c p` is the stream of uniform draws
used for component `c` in sublattice pass `p`.  Components 0 (phi), 1 (theta)
and 2 (psi) are processed in that order. -/
noncomputable def metropolisUpdate (P : Params) (L : ℕ) (moves : ℕ → Fin 3 → ℝ)
    (u : Fin 3 → Fin 2 → ℕ → ℝ) (E0 : ℕ → ℝ) (e : ℕ → Fin 3 → ℝ) :
    (ℕ → Fin 3 → ℝ) × (ℕ → ℝ) :=
  let mv : Fin 3 → ℕ → ℝ := fun c j => clipKick P.sigma (moves j c)
  componentStep P L 2 (mv 2) (u 2 0) (u 2 1)
    (componentStep P L 1 (mv 1) (u 1 0) (u 1 1)
      (componentStep P L 0 (mv 0) (u 0 0) (u 0 1) (e, E0)))

/-- Embedding of the sweep loop of `NakedDNA.mcRelaxation` (dnaMC.py lines
326-337): apply `metropolisUpdate` once per list entry, threading the baseline
energy density. -/
noncomputable def runSweeps (P : Params) (L : ℕ)
    (rs : List ((ℕ → Fin 3 → ℝ) × (Fin 3 → Fin 2 → ℕ → ℝ))) (E0 : ℕ → ℝ)
    (e : ℕ → Fin 3 → ℝ) : (ℕ → Fin 3 → ℝ) × (ℕ → ℝ) :=
  rs.foldl (fun st r => metropolisUpdate P L r.1 r.2 st.2 st.1) (e, E0)

/-- Embedding of the twist pin `self.euler[-1, 2] = x` executed by
`NakedDNA.torsionProtocol` before each burst of sweeps (dnaMC.py line 362). -/
noncomputable def setLastPsi (L : ℕ) (x : ℝ) (e : ℕ → Fin 3 → ℝ) :
    ℕ → Fin 3 → ℝ := fun r k => if r = L - 1 ∧ k = 2 then x else e r k

/-! ### dnaMC.py: construction and the Evolution record -/

/-- The attributes of a strand object set by the constructors in dnaMC.py that
the construction claims are about. -/
structure DNAState where
  L : ℕ
  B : ℝ
  Bm : ℝ
  Cmod : ℝ
  T : ℝ
  strandLength : ℝ
  d : ℝ
  kickSize : ℝ
  squared : Bool
  Pinv : ℝ
  bendZeros : Fin 2 → ℕ → ℝ
  nuc : List ℕ

/-- Embedding of `NakedDNA.__init__` (dnaMC.py lines 121-135) together with
`Simulation.__init__` (dnaMC.py lines 35-40), which sets `squared = True`.
The strand length is fixed at 740 nm and `Bm = B` (no disorder). -/
noncomputable def NakedDNA_init (L : ℕ) (B Cmod T kickSize : ℝ) : DNAState :=
  { L := L, B := B, Bm := B, Cmod := Cmod, T := T, strandLength := 740,
    d := 740 / (L : ℝ), kickSize := kickSize, squared := true, Pinv := 0,
    bendZeros := fun _ _ => 0, nuc := [] }

/-- Embedding of `DisorderedNakedDNA.__init__` (dnaMC.py lines 498-511) with
the frozen Gaussian draws `xi` passed explicitly.  The body contains no raise
statement: it runs `NakedDNA.__init__` (whose `Simulation` starts in squared
mode), recomputes `Bm = B / (1 - B * Pinv)`, freezes the disorder realization
`bend_zeros = sqrt(Pinv * d) * xi`, and then assigns `sim.squared = False`,
so the error branch of the `Except` codomain is never taken. -/
noncomputable def DisorderedNakedDNA_init (Pinv : ℝ) (xi : Fin 2 → ℕ → ℝ)
    (L : ℕ) (B Cmod T kickSize : ℝ) : Except String DNAState :=
  let base := NakedDNA_init L B Cmod T kickSize
  Except.ok { base with
    Pinv := Pinv,
    Bm := base.B / (1 - base.B * Pinv),
    bendZeros := fun i j => Real.sqrt (Pinv * base.d) * xi i j,
    squared := false }

/-- Values stored in a constants dictionary. -/
inductive PyVal where
  | num : ℝ → PyVal
  | natList : List ℕ → PyVal

/-- A Python dictionary with string keys, as an ordered association list. -/
def PyDict : Type := List (String × PyVal)

/-- Embedding of Python `d.update(e)`: the first component is the value of the
expression, which in Python is always `None`; the second is the mutated
receiver, with existing keys overwritten and new keys appended. -/
def dict_update (d e : PyDict) : Option PyDict × PyDict :=
  (none,
    (d.map fun kv => (kv.1, ((e.lookup kv.1).getD kv.2)))
      ++ e.filter fun kv => (d.lookup kv.1).isNone)

/-- Embedding of `NakedDNA.constants` (dnaMC.py lines 137-147). -/
noncomputable def NakedDNA_constants (s : DNAState) : PyDict :=
  [("temperature", PyVal.num s.T), ("B", PyVal.num s.B), ("Bm", PyVal.num s.Bm),
   ("C", PyVal.num s.Cmod), ("rodCount", PyVal.num (s.L : ℝ)),
   ("strandLength", PyVal.num s.strandLength), ("rodLength", PyVal.num s.d),
   ("kickSize", PyVal.num s.kickSize)]

/-- Embedding of `NucleosomeArray.constants` (dnaMC.py lines 551-552): the
method body is `return NakedDNA.constants(self).update({...})`, so the value
returned is the value of the `dict.update` call. -/
noncomputable def NucleosomeArray_constants (s : DNAState) : Option PyDict :=
  (dict_update (NakedDNA_constants s)
    [("nucleosomeIndices", PyVal.natList s.nuc)]).1

/-- Embedding of the start of `Evolution.__init__` (dnaMC.py lines 59-73):
`self.data = dna.constants()` followed by `self.data.update({...})`.  When the
constants call produced `None`, the attribute access `None.update` raises an
`AttributeError`; otherwise the record is the updated dictionary. -/
noncomputable def Evolution_init_data (constantsResult : Option PyDict)
    (extra : PyDict) : Except String PyDict :=
  match constantsResult with
  | none => Except.error "AttributeError: NoneType object has no attribute update"
  | some dt => Except.ok (dict_update dt extra).2

/-! ### Claim C4: the sweep partition rule -/

/-- Claim C4, counterexample.  The claim states that for `total < nsamples`
the entire budget is returned as a single remainder chunk; at `nsamples = 3`,
`total = 0` that would be the list `[0]`, but `partition 3 0` is empty: the
remainder chunk is only appended when `total % nsamples` is nonzero. -/
theorem partition_zero_total_has_no_remainder_chunk :
    partition 3 0 = [] ∧ partition 3 0 ≠ [0] := by
  decide

/-- Claim C4 (amended): for every `nsamples >= 1`, if `total >= nsamples` the
result is `nsamples` chunks of `total / nsamples` followed by a final chunk
`total % nsamples` exactly when `total` is not divisible; if `0 < total <
nsamples` the whole budget is the single remainder chunk; if `total = 0` the
result is empty; and the chunks always sum to `total`. -/
theorem partition_spec (n total : ℕ) (hn : 1 ≤ n) :
    (n ≤ total → partition n total =
        List.replicate n (total / n) ++
          (if total % n ≠ 0 then [total % n] else []))
      ∧ (0 < total → total < n → partition n total = [total])
      ∧ (total = 0 → partition n total = [])
      ∧ (partition n total).sum = total := by
  refine ⟨fun h => ?_, fun h0 hlt => ?_, fun h0 => ?_, ?_⟩
  · simp only [partition, if_pos h]
    split_ifs <;> simp
  · have hne : ¬ n ≤ total := Nat.not_le.mpr hlt
    have hmod : total % n = total := Nat.mod_eq_of_lt hlt
    simp [partition, hne, hmod, h0.ne']
  · subst h0
    have hne : ¬ n ≤ 0 := by omega
    simp [partition, hne]
  · rcases Nat.lt_or_ge total n with hlt | hge
    · have hmod : total % n = total := Nat.mod_eq_of_lt hlt
      by_cases h2 : total % n = 0
      · simp [partition, Nat.not_le.mpr hlt, h2]
        omega
      · have h0 : total ≠ 0 := by omega
        simp [partition, Nat.not_le.mpr hlt, h2, hmod, h0]
    · have hdm : n * (total / n) + total % n = total := Nat.div_add_mod total n
      by_cases h2 : total % n = 0 <;>
        simp [partition, hge, h2, List.sum_replicate, smul_eq_mul] <;> omega

/-- Claim C4 witness at the concrete instance from the spec:
`partition 3 10 = [3, 3, 3, 1]` with chunks summing to 10. -/
theorem partition_spec_witness :
    1 ≤ 3 ∧ partition 3 10 =
        List.replicate 3 (10 / 3) ++ (if 10 % 3 ≠ 0 then [10 % 3] else [])
      ∧ (partition 3 10).sum = 10 ∧ partition 3 10 = [3, 3, 3, 1] :=
  ⟨by decide, (partition_spec 3 10 (by decide)).1 (by decide),
    (partition_spec 3 10 (by decide)).2.2.2, by decide⟩

/-! ### Claim C2: the checkerboard sublattice masks -/

/-- Claim C3, counterexample.  Constructing the disorder variant with the
Python default arguments (the parent `Simulation` starts in squared mode)
does not raise: the constructor returns a live object, with squared mode
silently coerced off. -/
theorem disordered_init_default_not_rejected :
    ∃ s : DNAState,
      DisorderedNakedDNA_init (1 / 300) (fun _ _ => 0) 740 43 89 293.15 0.1
          = Except.ok s
        ∧ s.squared = false :=
  ⟨_, rfl, rfl⟩

/-- Claim C3 (amended): constructing the disorder variant never raises.  The
parent constructor leaves the simulation in squared mode, and
`DisorderedNakedDNA.__init__` then silently coerces it to exact mode (and
recomputes `Bm = B / (1 - B * Pinv)`), so no disordered object ever runs in
squared mode, but the combination is coerced rather than rejected. -/
theorem disordered_init_coerces_squared_off (Pinv : ℝ) (xi : Fin 2 → ℕ → ℝ)
    (L : ℕ) (B Cmod T kickSize : ℝ) :
    (NakedDNA_init L B Cmod T kickSize).squared = true
      ∧ ∃ s : DNAState,
          DisorderedNakedDNA_init Pinv xi L B Cmod T kickSize = Except.ok s
            ∧ s.squared = false ∧ s.Bm = B / (1 - B * Pinv) :=
  ⟨rfl, _, rfl, rfl, rfl⟩

/-! ### Claims C1 and C9: the Metropolis sweep -/

/-- A sublattice pass never writes outside the interior rod slice
`euler[1:-1]`. -/
lemma sublatticePass_fst_out (P : Params) (L : ℕ) (c : Fin 3) (mask : ℕ → Bool)
    (evenFlag : Bool) (move u E0 : ℕ → ℝ) (e : ℕ → Fin 3 → ℝ) (r : ℕ)
    (hr : ¬(1 ≤ r ∧ r ≤ L - 2)) :
    (sublatticePass P L c mask evenFlag move u E0 e).1 r = e r := by
  funext k
  simp only [sublatticePass, perturbedState]
  rw [if_neg (fun h => hr h.2), if_neg (fun h => hr h.2)]

/-- One component iteration never writes outside the interior rod slice. -/
lemma componentStep_fst_out (P : Params) (L : ℕ) (c : Fin 3)
    (move u1 u2 : ℕ → ℝ) (st : (ℕ → Fin 3 → ℝ) × (ℕ → ℝ)) (r : ℕ)
    (hr : ¬(1 ≤ r ∧ r ≤ L - 2)) :
    (componentStep P L c move u1 u2 st).1 r = st.1 r := by
  simp only [componentStep]
  rw [sublatticePass_fst_out _ _ _ _ _ _ _ _ _ _ hr,
    sublatticePass_fst_out _ _ _ _ _ _ _ _ _ _ hr]

/-- A full Metropolis sweep never writes outside the interior rod slice. -/
lemma metropolisUpdate_fst_out (P : Params) (L : ℕ) (moves : ℕ → Fin 3 → ℝ)
    (u : Fin 3 → Fin 2 → ℕ → ℝ) (E0 : ℕ → ℝ) (e : ℕ → Fin 3 → ℝ) (r : ℕ)
    (hr : ¬(1 ≤ r ∧ r ≤ L - 2)) :
    (metropolisUpdate P L moves u E0 e).1 r = e r := by
  simp only [metropolisUpdate]
  rw [componentStep_fst_out _ _ _ _ _ _ _ _ hr,
    componentStep_fst_out _ _ _ _ _ _ _ _ hr,
    componentStep_fst_out _ _ _ _ _ _ _ _ hr]

/-- A burst of sweeps never writes outside the interior rod slice. -/
lemma runSweeps_fst_out (P : Params) (L : ℕ)
    (rs : List ((ℕ → Fin 3 → ℝ) × (Fin 3 → Fin 2 → ℕ → ℝ))) (E0 : ℕ → ℝ)
    (e : ℕ → Fin 3 → ℝ) (r : ℕ) (hr : ¬(1 ≤ r ∧ r ≤ L - 2)) :
    (runSweeps P L rs E0 e).1 r = e r := by
  induction rs generalizing e E0 with
  | nil => rfl
  | cons hd tl ih =>
    simp only [runSweeps, List.foldl_cons] at ih ⊢
    rw [ih]
    exact metropolisUpdate_fst_out _ _ _ _ _ _ _ hr

/-- The last rod `L - 1` lies outside the interior slice 1..L-2 for every rod
count. -/
lemma last_rod_not_interior (L : ℕ) : ¬(1 ≤ L - 1 ∧ L - 1 ≤ L - 2) := by
  omega

/-- Claim C1: within a sublattice pass, each perturbed interior rod is
resolved independently by its own flanking-junction energy delta and its own
uniform draw: the rod keeps its perturbed angle exactly when `deltaE <= 0` or
its uniform draw falls below `exp(-deltaE)`, and otherwise its angle is
reverted to the exact pre-perturbation value.  Settled against the
spec-modelled `metropolis`, whose source is absent from src. -/
theorem metropolis_resolves_each_rod (P : Params) (L : ℕ) (c : Fin 3)
    (mask : ℕ → Bool) (evenFlag : Bool) (move u E0 : ℕ → ℝ)
    (e : ℕ → Fin 3 → ℝ) (j : ℕ) (hmask : mask j = true)
    (hpar : j % 2 = (if evenFlag then 0 else 1)) (hj : j + 1 ≤ L - 2) :
    (sublatticePass P L c mask evenFlag move u E0 e).1 (j + 1) c =
      if passDeltaE P L c mask move E0 e j ≤ 0
          ∨ u j < Real.exp (-passDeltaE P L c mask move E0 e j)
        then e (j + 1) c + move j
        else e (j + 1) c := by
  simp only [sublatticePass, perturbedState, metropolis, Nat.add_sub_cancel,
    eq_true (Nat.le_add_left 1 j), eq_true hj, eq_self_iff_true, true_and,
    if_true, hpar, hmask, boolToReal]
  by_cases hacc : passDeltaE P L c mask move E0 e j ≤ 0
      ∨ u j < Real.exp (-passDeltaE P L c mask move E0 e j)
  · rw [if_pos hacc, if_pos hacc]
    ring
  · rw [if_neg hacc, if_neg hacc]
    ring

/-- Claim C1 witness: the oddMask pass at rod count 4, component phi, mask
index 1 (interior rod 2), with unit parameters, unit move and zero draws. -/
theorem metropolis_resolves_each_rod_witness :
    oddMask 1 = true ∧ (1 % 2 = (if false then 0 else 1)) ∧ (1 + 1 ≤ 4 - 2) ∧
      ((sublatticePass ⟨1, 1, 1, 1, 1, 1, 1⟩ 4 0 oddMask false (fun _ => 1)
          (fun _ => 0) (fun _ => 0) (fun _ _ => 0)).1 2 0 =
        if passDeltaE ⟨1, 1, 1, 1, 1, 1, 1⟩ 4 0 oddMask (fun _ => 1)
              (fun _ => 0) (fun _ _ => 0) 1 ≤ 0
            ∨ (0:ℝ) < Real.exp (-passDeltaE ⟨1, 1, 1, 1, 1, 1, 1⟩ 4 0 oddMask
                (fun _ => 1) (fun _ => 0) (fun _ _ => 0) 1)
          then (0:ℝ) + 1 else (0:ℝ)) :=
  ⟨by decide, by decide, by decide,
    metropolis_resolves_each_rod ⟨1, 1, 1, 1, 1, 1, 1⟩ 4 0 oddMask false
      (fun _ => 1) (fun _ => 0) (fun _ => 0) (fun _ _ => 0) 1 (by decide)
      (by decide) (by decide)⟩

/-- Claim C9: a Metropolis sweep leaves the full Euler triples of rod 0 and
rod L-1 unchanged (the slice `euler[1:-1]` excludes them), and the psi of rod
L-1 is written by the torsion driver between sweep bursts: after the driver
pins it to `x`, any burst of sweeps still reads back `x`. -/
theorem boundary_rods_fixed (P : Params) (L : ℕ) (moves : ℕ → Fin 3 → ℝ)
    (u : Fin 3 → Fin 2 → ℕ → ℝ) (E0 E1 : ℕ → ℝ) (e : ℕ → Fin 3 → ℝ) (x : ℝ)
    (rs : List ((ℕ → Fin 3 → ℝ) × (Fin 3 → Fin 2 → ℕ → ℝ))) :
    ((metropolisUpdate P L moves u E0 e).1 0 = e 0
        ∧ (metropolisUpdate P L moves u E0 e).1 (L - 1) = e (L - 1))
      ∧ (runSweeps P L rs E1 (setLastPsi L x e)).1 (L - 1) 2 = x := by
  refine ⟨⟨?_, ?_⟩, ?_⟩
  · exact metropolisUpdate_fst_out P L moves u E0 e 0 (by omega)
  · exact metropolisUpdate_fst_out P L moves u E0 e (L - 1)
      (last_rod_not_interior L)
  · rw [congrFun (runSweeps_fst_out P L rs E1 (setLastPsi L x e) (L - 1)
      (last_rod_not_interior L)) 2]
    simp [setLastPsi]

/-! ### Rotation geometry lemmas -/

/-- The z-axis branch of `axialRotMatrix`. -/
lemma axialRotMatrix_z (θ : ℝ) : axialRotMatrix θ 2 =
    !![Real.cos θ, Real.sin θ, 0; -Real.sin θ, Real.cos θ, 0; 0, 0, 1] := by
  simp [axialRotMatrix]

/-- The x-axis branch of `axialRotMatrix`. -/
lemma axialRotMatrix_x (θ : ℝ) : axialRotMatrix θ 0 =
    !![1, 0, 0; 0, Real.cos θ, Real.sin θ; 0, -Real.sin θ, Real.cos θ] := by
  simp [axialRotMatrix]

/-- The z-x-z axial product of `eulerMatrixOfAngles` multiplies out to exactly
the nine entries written in `utils.rotation_matrices`: the two functions of the
source compute the same matrix. -/
lemma eulerMatrix_eq_rotationMatrix (a : Fin 3 → ℝ) :
    eulerMatrixOfAngles a = rotationMatrix a := by
  unfold eulerMatrixOfAngles rotationMatrix
  rw [axialRotMatrix_z, axialRotMatrix_x, axialRotMatrix_z,
    Matrix.mul_fin_three, Matrix.mul_fin_three]
  ext i j
  fin_cases i <;> fin_cases j <;>
    simp only [Matrix.cons_val', Matrix.cons_val_zero, Matrix.cons_val_one,
      Matrix.cons_val_two, Matrix.head_cons, Matrix.tail_cons,
      Matrix.head_fin_const, Matrix.empty_val', Matrix.cons_val_fin_one,
      Matrix.of_apply] <;> ring_nf

/-- Scaling both arguments of `arctan2` by a positive factor does not change
the angle. -/
lemma arctan2_pos_mul (s y x : ℝ) (hs : 0 < s) :
    arctan2 (s * y) (s * x) = arctan2 y x := by
  unfold arctan2
  have h : ((s * x : ℝ) : ℂ) + ((s * y : ℝ) : ℂ) * Complex.I
      = (s : ℝ) * (((x : ℝ) : ℂ) + ((y : ℝ) : ℂ) * Complex.I) := by
    push_cast
    ring
  rw [h, Complex.arg_real_mul _ hs]

/-- On the principal range `(-pi, pi]`, `arctan2` inverts the sine-cosine
pair. -/
lemma arctan2_sin_cos (x : ℝ) (h1 : -π < x) (h2 : x ≤ π) :
    arctan2 (Real.sin x) (Real.cos x) = x := by
  unfold arctan2
  exact_mod_cast Complex.arg_cos_add_sin_mul_I ⟨h1, h2⟩

/-! ### Claim C7: the Euler angle round trip -/

/-- Claim C7: for theta strictly inside (0, pi) and phi, psi in the principal
range (-pi, pi], extracting angles from the rotation matrix of an Euler triple
returns the triple exactly. -/
theorem angles_roundtrip (φ θ ψ : ℝ) (hφ1 : -π < φ) (hφ2 : φ ≤ π)
    (hθ1 : 0 < θ) (hθ2 : θ < π) (hψ1 : -π < ψ) (hψ2 : ψ ≤ π) :
    anglesOfEulerMatrix (eulerMatrixOfAngles ![φ, θ, ψ]) = ![φ, θ, ψ] := by
  rw [eulerMatrix_eq_rotationMatrix]
  have hsθ : 0 < Real.sin θ := Real.sin_pos_of_pos_of_lt_pi hθ1 hθ2
  have hc1 : Real.cos θ < 1 := by
    have h := Real.cos_lt_cos_of_nonneg_of_le_pi le_rfl hθ2.le hθ1
    simpa using h
  have hcm1 : -1 < Real.cos θ := by
    have h := Real.cos_lt_cos_of_nonneg_of_le_pi hθ1.le le_rfl hθ2
    simpa using h
  have h22 : rotationMatrix ![φ, θ, ψ] 2 2 = Real.cos θ := by
    simp [rotationMatrix]
  have h02 : rotationMatrix ![φ, θ, ψ] 0 2 = Real.sin θ * Real.sin φ := by
    simp [rotationMatrix]
  have h12 : rotationMatrix ![φ, θ, ψ] 1 2 = Real.cos φ * Real.sin θ := by
    simp [rotationMatrix]
  have h20 : rotationMatrix ![φ, θ, ψ] 2 0 = Real.sin θ * Real.sin ψ := by
    simp [rotationMatrix]
  have h21 : rotationMatrix ![φ, θ, ψ] 2 1 = -(Real.cos ψ * Real.sin θ) := by
    simp [rotationMatrix]
  simp only [anglesOfEulerMatrix]
  rw [if_neg (by rw [h22]; exact hc1.ne), if_neg (by rw [h22]; exact hcm1.ne'),
    h02, h12, h20, h21, h22]
  have e0 : arctan2 (Real.sin θ * Real.sin φ) (Real.cos φ * Real.sin θ) = φ := by
    rw [show Real.cos φ * Real.sin θ = Real.sin θ * Real.cos φ by ring]
    rw [arctan2_pos_mul (Real.sin θ) (Real.sin φ) (Real.cos φ) hsθ]
    exact arctan2_sin_cos φ hφ1 hφ2
  have e1 : Real.arccos (Real.cos θ) = θ := Real.arccos_cos hθ1.le hθ2.le
  have e2 : arctan2 (Real.sin θ * Real.sin ψ) (-(-(Real.cos ψ * Real.sin θ))) = ψ := by
    rw [neg_neg, show Real.cos ψ * Real.sin θ = Real.sin θ * Real.cos ψ by ring]
    rw [arctan2_pos_mul (Real.sin θ) (Real.sin ψ) (Real.cos ψ) hsθ]
    exact arctan2_sin_cos ψ hψ1 hψ2
  rw [e0, e1, e2]

/-- Claim C7 witness at the concrete generic triple (0, pi/2, 0). -/
theorem angles_roundtrip_witness :
    (-π < (0:ℝ) ∧ (0:ℝ) ≤ π ∧ (0:ℝ) < π/2 ∧ π/2 < π) ∧
      anglesOfEulerMatrix (eulerMatrixOfAngles ![0, π/2, 0]) = ![0, π/2, 0] := by
  have hpi := Real.pi_pos
  exact ⟨⟨by linarith, by linarith, by linarith, by linarith⟩,
    angles_roundtrip 0 (π/2) 0 (by linarith) (by linarith) (by linarith)
      (by linarith) (by linarith) (by linarith)⟩

/-! ### Claim C8: detection of the singular branches -/

/-- Claim C8, counterexample.  There is no positive tolerance for which every
matrix whose corner entry lies within that tolerance of 1 (or of -1) is routed
to the singular branch that fixes phi to 0: the source compares `m[2][2]` with
exact floating equality, so for any tolerance the matrix with corner entry
`1 - min tol 1 / 2`, zero entry (0,2) and entry -1 at (1,2) falls inside the
tolerance yet takes the generic branch, which returns phi = arctan2 0 (-1) =
pi, not 0. -/
theorem anglesOfEulerMatrix_no_tolerance :
    ¬ ∃ tol : ℝ, 0 < tol ∧ ∀ m : Matrix (Fin 3) (Fin 3) ℝ,
        (|m 2 2 - 1| < tol ∨ |m 2 2 + 1| < tol) →
          (anglesOfEulerMatrix m) 0 = 0 := by
  rintro ⟨tol, htol, hall⟩
  set c : ℝ := 1 - min tol 1 / 2 with hc
  have hmin0 : 0 < min tol 1 := lt_min htol one_pos
  have hmin1 : min tol 1 ≤ 1 := min_le_right tol 1
  have hmint : min tol 1 ≤ tol := min_le_left tol 1
  have hc1 : c < 1 := by
    rw [hc]
    linarith
  have hcm1 : (-1:ℝ) < c := by
    rw [hc]
    linarith
  have habs : |c - 1| < tol := by
    rw [hc, abs_of_nonpos (by linarith)]
    linarith
  have hent : (!![0,0,0; 0,0,-1; 0,0,c] : Matrix (Fin 3) (Fin 3) ℝ) 2 2 = c := by
    simp
  have h := hall !![0,0,0; 0,0,-1; 0,0,c] (Or.inl (by rw [hent]; exact habs))
  simp only [anglesOfEulerMatrix] at h
  rw [if_neg (by rw [hent]; exact hc1.ne),
    if_neg (by rw [hent]; exact hcm1.ne')] at h
  have h02 : (!![0,0,0; 0,0,-1; 0,0,c] : Matrix (Fin 3) (Fin 3) ℝ) 0 2 = 0 := by
    simp
  have h12 : (!![0,0,0; 0,0,-1; 0,0,c] : Matrix (Fin 3) (Fin 3) ℝ) 1 2 = -1 := by
    simp
  rw [h02, h12] at h
  simp only [Matrix.cons_val_zero] at h
  have harg : arctan2 (0:ℝ) (-1) = π := by
    unfold arctan2
    have hz : ((-1:ℝ):ℂ) + ((0:ℝ):ℂ) * Complex.I = -1 := by
      norm_num
    rw [hz]
    exact Complex.arg_neg_one
  rw [harg] at h
  exact Real.pi_ne_zero h

/-- Claim C8 (amended): the source detects the singular cases theta = 0 and
theta = pi by exact equality of the corner entry with 1 or -1 (not by a
numerical tolerance); in exactly those cases it takes the special branch that
fixes phi = 0 and extracts the combined angle via a single arctan2 of the
(0,1) and (0,0) entries. -/
theorem anglesOfEulerMatrix_exact_singular (m : Matrix (Fin 3) (Fin 3) ℝ) :
    (m 2 2 = 1 → anglesOfEulerMatrix m = ![0, 0, arctan2 (m 0 1) (m 0 0)])
      ∧ (m 2 2 = -1 →
          anglesOfEulerMatrix m = ![0, π, arctan2 (m 0 1) (m 0 0)]) := by
  constructor
  · intro h
    simp only [anglesOfEulerMatrix]
    rw [if_pos h]
  · intro h
    simp only [anglesOfEulerMatrix]
    rw [if_neg (by rw [h]; norm_num), if_pos h]

/-- Claim C8 witness at the identity matrix, whose corner entry is exactly
1. -/
theorem anglesOfEulerMatrix_exact_singular_witness :
    ((1 : Matrix (Fin 3) (Fin 3) ℝ) 2 2 = 1) ∧
      anglesOfEulerMatrix (1 : Matrix (Fin 3) (Fin 3) ℝ) =
        ![0, 0, arctan2 ((1 : Matrix (Fin 3) (Fin 3) ℝ) 0 1)
            ((1 : Matrix (Fin 3) (Fin 3) ℝ) 0 0)] :=
  ⟨Matrix.one_apply_eq 2,
    (anglesOfEulerMatrix_exact_singular 1).1 (Matrix.one_apply_eq 2)⟩

/-! ### Claim C5: twist schedules from a single stop value -/

/-- Claim C5, counterexample.  With a single stop value 3 and default step 2
(the smaller in magnitude), `twist_steps` yields `arange(0, stop + step,
step) = [0, 2, 4]`: the stop value 3 is absent and the final target 4
overshoots it, so the output is not the arithmetic sequence from 0 to stop
inclusive whenever stop is not a multiple of the chosen step. -/
theorem twist_steps_single_overshoots_stop :
    twist_steps_single 2 3 = [0, 2, 4]
      ∧ (3:ℝ) ∉ twist_steps_single 2 3
      ∧ ∃ y ∈ twist_steps_single 2 3, (3:ℝ) < y := by
  have h1 : twist_steps_single 2 3 = np_arange 0 (3 + 2) 2 := by
    simp only [twist_steps_single, smart_arange, chosenStep]
    rw [if_pos (by norm_num : |(2:ℝ)| ≤ |(3:ℝ)|)]
    rw [if_pos (by norm_num : (0:ℝ) < ((3:ℝ) - 0) * 2)]
    simp
  have h2 : twist_steps_single 2 3 = [0, 2, 4] := by
    rw [h1, np_arange]
    have h3 : ⌈(((3:ℝ) + 2) - 0) / 2⌉ = 3 := by
      rw [Int.ceil_eq_iff]
      norm_num
    rw [h3]
    simp [List.range_succ]
    norm_num
  refine ⟨h2, ?_, ⟨4, ?_, by norm_num⟩⟩
  · rw [h2]
    norm_num
  · rw [h2]
    norm_num

/-- Claim C5 (amended): when the single stop value is a positive integer
multiple `n * s` of the chosen step `s` (the smaller in magnitude of the
default step and the stop itself, exactly the `tmp` of utils.py line 50),
`twist_steps` produces exactly the arithmetic sequence `0, s, 2s, ..., stop`,
stop inclusive -- as in the spec instance stop = pi, default step pi/4.  This
covers both selection branches: when `|default| <= |stop|` the chosen step is
the default, and when `0 < stop < |default|` the chosen step is the stop
itself (`n = 1`) and the output is `[0, stop]`.  For stops that are not
multiples of the chosen step the sequence instead ends strictly beyond the
stop. -/
theorem twist_steps_single_exact_multiples (d f : ℝ) (n : ℕ)
    (hn : 1 ≤ n) (hs : 0 < chosenStep d f) (hf : f = n * chosenStep d f) :
    twist_steps_single d f =
      (List.range (n + 1)).map fun k => (k : ℝ) * chosenStep d f := by
  set s := chosenStep d f with hsdef
  have hn1 : (1:ℝ) ≤ (n:ℝ) := by exact_mod_cast hn
  have hns : s ≤ (n:ℝ) * s := by nlinarith
  have hf0 : 0 < f := by
    rw [hf]
    nlinarith
  have h1 : twist_steps_single d f = np_arange 0 (f + s) s := by
    simp only [twist_steps_single, smart_arange, ← hsdef]
    rw [if_pos (by nlinarith : (0:ℝ) < (f - 0) * s)]
    simp
  rw [h1, np_arange]
  have hdiv : ((f + s) - 0) / s = (n : ℝ) + 1 := by
    field_simp [hf]
    ring
  have hceil : ⌈((f + s) - 0) / s⌉ = (n : ℤ) + 1 := by
    rw [hdiv]
    norm_num
  rw [hceil]
  have htn : ((n : ℤ) + 1).toNat = n + 1 := by omega
  rw [htn]
  simp

/-- Claim C5 witness, exercising both branches of the step selection: the
spec instance (stop pi, default step pi/4, five targets 0, pi/4, pi/2, 3pi/4,
pi) and a stop 3 smaller than the default step 4, where the chosen step is
the stop itself and the schedule is [0, 3]. -/
theorem twist_steps_single_pi_witness :
    ((0:ℝ) < chosenStep (π/4) π ∧ π = ((4:ℕ):ℝ) * chosenStep (π/4) π ∧
        twist_steps_single (π/4) π = [0, π/4, π/2, 3*π/4, π])
      ∧ ((0:ℝ) < chosenStep 4 3 ∧ (3:ℝ) = ((1:ℕ):ℝ) * chosenStep 4 3 ∧
          twist_steps_single 4 3 = [0, 3]) := by
  have hpi := Real.pi_pos
  have hcs : chosenStep (π/4) π = π/4 := by
    rw [chosenStep, if_pos]
    rw [abs_of_pos (by positivity), abs_of_pos hpi]
    linarith
  have hcs2 : chosenStep (4:ℝ) 3 = 3 := by
    rw [chosenStep, if_neg]
    norm_num
  constructor
  · refine ⟨by rw [hcs]; positivity, by rw [hcs]; push_cast; ring, ?_⟩
    rw [twist_steps_single_exact_multiples (π/4) π 4 (by norm_num)
        (by rw [hcs]; positivity) (by rw [hcs]; push_cast; ring)]
    simp only [hcs]
    simp [List.range_succ]
    ring_nf
    simp
  · refine ⟨by rw [hcs2]; norm_num, by rw [hcs2]; norm_num, ?_⟩
    rw [twist_steps_single_exact_multiples 4 3 1 (by norm_num)
        (by rw [hcs2]; norm_num) (by rw [hcs2]; norm_num)]
    simp only [hcs2]
    simp [List.range_succ]

/-! ### Claim C6: nonnegative energy densities in squared mode -/

/-- The corner entry of the junction relative rotation is the dot product of
the third columns of the flanking rotation matrices, which reduces to
`cos t1 cos t2 + sin t1 sin t2 cos (p2 - p1)`. -/
lemma deltaMatrix_zz (a b : Fin 3 → ℝ) :
    deltaMatrix a b 2 2 = Real.cos (a 1) * Real.cos (b 1)
      + Real.sin (a 1) * Real.sin (b 1) * Real.cos (b 0 - a 0) := by
  rw [Real.cos_sub]
  simp only [deltaMatrix, Matrix.mul_apply, Matrix.transpose_apply,
    Fin.sum_univ_three, rotationMatrix, Matrix.cons_val', Matrix.cons_val_zero,
    Matrix.cons_val_one, Matrix.cons_val_two, Matrix.head_cons, Matrix.tail_cons,
    Matrix.head_fin_const, Matrix.empty_val', Matrix.cons_val_fin_one,
    Matrix.of_apply]
  ring

/-- Structure of the squared twist angle: writing `t, s` for the cosine and
sine of the polar angles, `ca, sa` for those of the azimuthal difference and
`cg, sg` for those of the spin difference, `GammaSq = K - (P cg - Q sg)` with
`K = 1 + t1 t2 + s1 s2 ca`, `P = ca (1 + t1 t2) + s1 s2`, `Q = sa (t1 + t2)`.
This is a polynomial identity between the matrix entries and the angle
differences. -/
lemma gammaSq_eq (a b : Fin 3 → ℝ) :
    gammaSq a b =
      (1 + Real.cos (a 1) * Real.cos (b 1)
          + Real.sin (a 1) * Real.sin (b 1) * Real.cos (b 0 - a 0))
        - ((Real.cos (b 0 - a 0) * (1 + Real.cos (a 1) * Real.cos (b 1))
              + Real.sin (a 1) * Real.sin (b 1)) * Real.cos (b 2 - a 2)
            - (Real.sin (b 0 - a 0) * (Real.cos (a 1) + Real.cos (b 1)))
              * Real.sin (b 2 - a 2)) := by
  rw [Real.cos_sub, Real.cos_sub, Real.sin_sub, Real.sin_sub]
  simp only [gammaSq, deltaMatrix, Matrix.mul_apply, Matrix.transpose_apply,
    Fin.sum_univ_three, rotationMatrix, Matrix.cons_val', Matrix.cons_val_zero,
    Matrix.cons_val_one, Matrix.cons_val_two, Matrix.head_cons, Matrix.tail_cons,
    Matrix.head_fin_const, Matrix.empty_val', Matrix.cons_val_fin_one,
    Matrix.of_apply]
  ring

/-- Unit vectors have inner product at most one (written out for the two
third columns). -/
lemma bend_dot_le_one (t1 s1 t2 s2 ca sa : ℝ) (h1 : s1^2 + t1^2 = 1)
    (h2 : s2^2 + t2^2 = 1) (ha : sa^2 + ca^2 = 1) :
    t1*t2 + s1*s2*ca ≤ 1 := by
  nlinarith [sq_nonneg (t1 - t2), sq_nonneg (s1 - s2*ca), sq_nonneg (s2*sa)]

/-- Core inequality behind the twist density: with `K, P, Q` as in
`gammaSq_eq` one has `K >= 0` and `K^2 = P^2 + Q^2`, hence
`K - (P cg - Q sg) >= 0` for any point `(cg, sg)` of the unit circle. -/
lemma twist_gamma_nonneg_aux (t1 s1 t2 s2 ca sa cg sg : ℝ)
    (h1 : s1^2 + t1^2 = 1) (h2 : s2^2 + t2^2 = 1)
    (ha : sa^2 + ca^2 = 1) (hg : sg^2 + cg^2 = 1) :
    0 ≤ (1 + t1*t2 + s1*s2*ca)
        - ((ca*(1 + t1*t2) + s1*s2)*cg - (sa*(t1 + t2))*sg) := by
  have hK : 0 ≤ 1 + t1*t2 + s1*s2*ca := by
    nlinarith [sq_nonneg (t1 + t2), sq_nonneg (s1 + s2*ca), sq_nonneg (s2*sa)]
  have e2 : 1 - ca^2 = sa^2 := by linarith
  have e4 : 1 - t1^2 = s1^2 := by linarith
  have e5 : 1 - t2^2 = s2^2 := by linarith
  have hKPQ : (1 + t1*t2 + s1*s2*ca)^2
      = (ca*(1 + t1*t2) + s1*s2)^2 + (sa*(t1 + t2))^2 := by
    have step1 : (1 + t1*t2 + s1*s2*ca)^2
        = (ca*(1 + t1*t2) + s1*s2)^2
          + ((1 + t1*t2)^2 - s1^2*s2^2) * (1 - ca^2) := by
      ring
    rw [step1, e2]
    have step2 : (ca*(1 + t1*t2) + s1*s2)^2 + ((1 + t1*t2)^2 - s1^2*s2^2) * sa^2
        = (ca*(1 + t1*t2) + s1*s2)^2 + (sa*(t1 + t2))^2
          + ((1 - t1^2)*(1 - t2^2) - s1^2*s2^2) * sa^2 := by
      ring
    rw [step2, e4, e5]
    ring
  have hkey : ((ca*(1 + t1*t2) + s1*s2)*cg - (sa*(t1 + t2))*sg)^2
      + ((ca*(1 + t1*t2) + s1*s2)*sg + (sa*(t1 + t2))*cg)^2
      = (ca*(1 + t1*t2) + s1*s2)^2 + (sa*(t1 + t2))^2 := by
    have hdist : ((ca*(1 + t1*t2) + s1*s2)*cg - (sa*(t1 + t2))*sg)^2
        + ((ca*(1 + t1*t2) + s1*s2)*sg + (sa*(t1 + t2))*cg)^2
        = ((ca*(1 + t1*t2) + s1*s2)^2 + (sa*(t1 + t2))^2) * (sg^2 + cg^2) := by
      ring
    rw [hdist, hg, mul_one]
  set K := 1 + t1*t2 + s1*s2*ca with hKdef
  set P := ca*(1 + t1*t2) + s1*s2 with hPdef
  set Q := sa*(t1 + t2) with hQdef
  have hX2 : (P*cg - Q*sg)^2 ≤ K^2 := by
    nlinarith [sq_nonneg (P*sg + Q*cg)]
  rcases le_or_lt (P*cg - Q*sg) 0 with hX | hX
  · linarith
  · nlinarith [hX2, hK, hX]

/-- The squared bend angle is nonnegative for every pair of rod
orientations. -/
lemma betaSq_nonneg (a b : Fin 3 → ℝ) : 0 ≤ betaSq a b := by
  rw [betaSq, deltaMatrix_zz]
  have h := bend_dot_le_one (Real.cos (a 1)) (Real.sin (a 1)) (Real.cos (b 1))
    (Real.sin (b 1)) (Real.cos (b 0 - a 0)) (Real.sin (b 0 - a 0))
    (Real.sin_sq_add_cos_sq (a 1)) (Real.sin_sq_add_cos_sq (b 1))
    (Real.sin_sq_add_cos_sq (b 0 - a 0))
  linarith

/-- The squared twist angle is nonnegative for every pair of rod
orientations. -/
lemma gammaSq_nonneg (a b : Fin 3 → ℝ) : 0 ≤ gammaSq a b := by
  rw [gammaSq_eq]
  exact twist_gamma_nonneg_aux (Real.cos (a 1)) (Real.sin (a 1)) (Real.cos (b 1))
    (Real.sin (b 1)) (Real.cos (b 0 - a 0)) (Real.sin (b 0 - a 0))
    (Real.cos (b 2 - a 2)) (Real.sin (b 2 - a 2))
    (Real.sin_sq_add_cos_sq (a 1)) (Real.sin_sq_add_cos_sq (b 1))
    (Real.sin_sq_add_cos_sq (b 0 - a 0)) (Real.sin_sq_add_cos_sq (b 2 - a 2))

/-- Claim C6: in squared mode, for every pair of flanking rod orientations
(hence every junction relative rotation reachable from Euler angles), the
bending energy density `Bm/(2d) * 2(1 - D_zz)` and the twist energy density
`C/(2d) * (1 - D_xx - D_yy + D_zz)` are nonnegative, given positive moduli
and rod length. -/
theorem squared_energy_densities_nonneg (Bm Cmod d : ℝ) (a b : Fin 3 → ℝ)
    (hB : 0 < Bm) (hC : 0 < Cmod) (hd : 0 < d) :
    0 ≤ bendingEnergyDensitySq Bm d a b ∧ 0 ≤ twistEnergyDensitySq Cmod d a b := by
  constructor
  · exact mul_nonneg (by positivity) (betaSq_nonneg a b)
  · exact mul_nonneg (by positivity) (gammaSq_nonneg a b)

/-- Claim C6 witness at unit moduli and the straight configuration. -/
theorem squared_energy_densities_nonneg_witness :
    ((0:ℝ) < 1) ∧
      (0 ≤ bendingEnergyDensitySq 1 1 (fun _ => 0) (fun _ => 0)
        ∧ 0 ≤ twistEnergyDensitySq 1 1 (fun _ => 0) (fun _ => 0)) :=
  ⟨by norm_num,
    squared_energy_densities_nonneg 1 1 1 (fun _ => 0) (fun _ => 0)
      (by norm_num) (by norm_num) (by norm_num)⟩

/-! ### Claim C10: NucleosomeArray.constants returns None -/

/-- Claim C10: `NucleosomeArray.constants` returns the value of
`dict.update`, which is `None`, instead of the dictionary; consequently
building the Evolution record data (as every protocol run does) raises an
`AttributeError` instead of producing a record. -/
theorem nucleosome_constants_none_breaks_evolution (s : DNAState)
    (extra : PyDict) :
    NucleosomeArray_constants s = none
      ∧ Evolution_init_data (NucleosomeArray_constants s) extra =
          Except.error
            "AttributeError: NoneType object has no attribute update" :=
  ⟨rfl, rfl⟩

end NucArray
